import Mathlib

/-!
# Verification of the measure-fn instrumentation core

This file shallowly embeds the core of the `measure-fn` TypeScript library
(src: `index.ts`) in Lean 4 and proves the frozen specification claims
about it.  Pure functions of the source are translated to Lean functions;
the mutable engine state (root counter, `_lastError`) is threaded
explicitly; emitted events are collected in lists; fallible operations
(`assert`) return `Except`.  JavaScript numbers used for times, budgets
and timeouts are modelled as exact rationals (`ℚ`); machine-float rounding
of `toFixed` is modelled by exact rational rounding as specified for
`Number.prototype.toFixed` (round half away from zero for positives).
-/

namespace MeasureSpec

/-! ## Id generation (source: `toAlpha`, lines 3-11)

The source builds the token with a do-while loop that prepends
`chr(97 + n % 26)` and then sets `n = floor(n / 26) - 1`, stopping when
`n < 0`.  Unrolled, the token for `n ≥ 26` is the token of
`n / 26 - 1` followed by the character for `n % 26`; for `n < 26` it is
the single character.  `toAlphaList` is that recursion on the list of
characters; `toAlpha` packs it into a string. -/

def toAlphaFuel : Nat → Nat → List Char
  | 0, n => [Char.ofNat (97 + n % 26)]
  | fuel + 1, n =>
    if n < 26 then [Char.ofNat (97 + n % 26)]
    else toAlphaFuel fuel (n / 26 - 1) ++ [Char.ofNat (97 + n % 26)]

/-- The source loop terminates because `n / 26 - 1 < n`; the recursion is
realised with a structural fuel argument (`n` itself bounds the number of
iterations, and the fuel-exhausted base case is only reached at `n = 0`,
where it agrees with the loop), so the definition reduces inside the
kernel.  `toAlphaList_lt` and `toAlphaList_ge` below recover exactly the
loop's unfolding. -/
def toAlphaList (n : Nat) : List Char := toAlphaFuel n n

def toAlpha (n : Nat) : String :=
  String.mk (toAlphaList n)

/-- Numeric value of one bijective base-26 digit character: 'a' ↦ 1, …, 'z' ↦ 26. -/
def alphaDigit (c : Char) : Nat := c.toNat - 96

/-- Left fold reading a token back as a bijective base-26 numeral; on the
image of `toAlphaList n` this evaluates to `n + 1`. -/
def alphaFold (l : List Char) : Nat :=
  l.foldl (fun a c => a * 26 + alphaDigit c) 0

/-- Decoder for id tokens: `alphaDecode (toAlphaList n) = n`. -/
def alphaDecode (l : List Char) : Nat := alphaFold l - 1

/-- Strict lexicographic comparison of char lists by code point. -/
def lexLtB : List Char → List Char → Bool
  | _, [] => false
  | [], _ :: _ => true
  | a :: s, b :: t => a.toNat < b.toNat || (a.toNat == b.toNat && lexLtB s t)

/-- Shortlex (length-then-lexicographic) strict order on tokens: the order
in which bijective base-26 tokens enumerate `a, b, …, z, aa, ab, …`. -/
def shortlexLt (s t : List Char) : Prop :=
  s.length < t.length ∨ (s.length = t.length ∧ lexLtB s t = true)

/-! ## JavaScript-ish values, labels and metadata (source lines 117-157)

Label attribute values are modelled by `JVal` (numbers as exact rationals,
strings, booleans).  `Number(v)` coercion is modelled by `jsNumber`, with
`none` standing for `NaN`; coercion of numeric strings is out of the
modelled scope (the engine compares the coerced number only with
`> 0` / `>` budget, where `NaN` and absence behave identically). -/

inductive JVal where
  | num (q : ℚ)
  | str (s : String)
  | boolean (b : Bool)
  deriving DecidableEq

def jvalToString : JVal → String
  | .num q => toString q
  | .str s => s
  | .boolean b => if b then "true" else "false"

def jsNumber : JVal → Option ℚ
  | .num q => some q
  | .str _ => none
  | .boolean b => some (if b then 1 else 0)

/-- A label is a plain string or an object with a property list
(source: `string | object` first argument; object keys are unique). -/
inductive MLabel where
  | str (s : String)
  | obj (attrs : List (String × JVal))
  deriving DecidableEq

/-- Source `buildActionLabel` (lines 117-121): `label` property if
present, else `String(actionInternal)` (which is "[object Object]" on a
plain object). -/
def buildActionLabel : MLabel → String
  | .str s => s
  | .obj attrs =>
    match attrs.lookup "label" with
    | some v => jvalToString v
    | none => "[object Object]"

/-- Source `extractBudget` (lines 123-127). -/
def extractBudget : MLabel → Option ℚ
  | .str _ => none
  | .obj attrs =>
    match attrs.lookup "budget" with
    | some v => jsNumber v
    | none => none

/-- Source `extractTimeout` (lines 129-133). -/
def extractTimeout : MLabel → Option ℚ
  | .str _ => none
  | .obj attrs =>
    match attrs.lookup "timeout" with
    | some v => jsNumber v
    | none => none

/-- Source `extractMaxResultLength` (lines 135-139). -/
def extractMaxResultLength : MLabel → Option ℚ
  | .str _ => none
  | .obj attrs =>
    match attrs.lookup "maxResultLength" with
    | some v => jsNumber v
    | none => none

/-- The keys the source `extractMeta` deletes from the copied label
object (lines 143-146): `label`, `budget`, `maxResultLength` — and no
others. -/
def metaDroppedKeys : List String := ["label", "budget", "maxResultLength"]

/-- Source `extractMeta` (lines 141-149): copy the object, delete the
keys above, return `undefined` when nothing remains. -/
def extractMeta : MLabel → Option (List (String × JVal))
  | .str _ => none
  | .obj attrs =>
    let details := attrs.filter (fun kv => !(metaDroppedKeys.contains kv.1))
    if details.isEmpty then none else some details

/-! ## Duration formatting (source `formatDuration`, lines 49-55)

`toFixed(d)` is modelled on exact rationals: the specified behaviour of
`Number.prototype.toFixed` picks the integer `n` with `n / 10^d` closest
to the value, choosing the larger `n` on ties (round half up for
non-negative inputs). -/

def qToFixed (digits : Nat) (q : ℚ) : String :=
  let n : Nat := (⌊q * (10 : ℚ) ^ digits + 1 / 2⌋).toNat
  let ip := n / 10 ^ digits
  let fp := n % 10 ^ digits
  if digits = 0 then toString ip
  else
    let fs := toString fp
    let pad := String.mk (List.replicate (digits - fs.length) '0')
    toString ip ++ "." ++ pad ++ fs

def formatDuration (ms : ℚ) : String :=
  if ms < 1000 then qToFixed 2 ms ++ "ms"
  else if ms < 60000 then qToFixed 1 (ms / 1000) ++ "s"
  else
    let mins := (⌊ms / 60000⌋).toNat
    let rem := ms - (mins : ℚ) * 60000
    let secs := (⌊rem / 1000 + 1 / 2⌋).toNat
    toString mins ++ "m " ++ toString secs ++ "s"

/-! ## Errors, outcomes and events -/

/-- Errors observed by the wrapper: an arbitrary user error (thrown by a
unit or an `onError` handler), or the synthetic deadline error created by
the timeout race, `new Error("Timeout (<formatted>)")` (line 318), which
carries the configured timeout; its message is `timeoutMessage t`. -/
inductive MErr (E : Type) where
  | user (e : E)
  | timeoutErr (t : ℚ)
  deriving DecidableEq

def timeoutMessage (t : ℚ) : String :=
  "Timeout (" ++ formatDuration t ++ ")"

/-- Settled outcome of running a unit of work: a produced value or a
thrown/rejected error. -/
inductive Outcome (α : Type) (E : Type) where
  | ok (a : α)
  | thrown (e : MErr E)
  deriving DecidableEq

/-- The structured event record handed to the emitter (source
`MeasureEvent`, lines 74-85), one constructor per `type` tag with exactly
the fields each `emit` call site populates.  `V` instantiates the
`result` payload (`Option _` for wrapped units, where `none` is JS
`null`; `String` for the batch tally). -/
inductive MEvent (V E : Type) where
  | start (id : String) (label : String) (depth : Nat)
      (meta : Option (List (String × JVal)))
  | success (id : String) (label : String) (depth : Nat) (duration : ℚ)
      (result : V) (budget : Option ℚ) (maxResultLength : Option ℚ)
  | error (id : String) (label : String) (depth : Nat) (duration : ℚ)
      (err : MErr E) (budget : Option ℚ) (maxResultLength : Option ℚ)
  | annot (id : String) (label : String) (depth : Nat)
      (meta : Option (List (String × JVal)))
  deriving DecidableEq

def MEvent.isError {V E : Type} : MEvent V E → Bool
  | .error _ _ _ _ _ _ _ => true
  | _ => false

def MEvent.isAnnot {V E : Type} : MEvent V E → Bool
  | .annot _ _ _ _ => true
  | _ => false

/-- Per-instance mutable state of `createMeasureImpl`: the root counter
and `_lastError` (lines 279-280). -/
structure EngineState (E : Type) where
  counter : Nat
  lastError : Option (MErr E)
  deriving DecidableEq

/-! ## The async execution wrapper (source `_measureInternal`, lines 282-342)

A unit of work is modelled by its settling time (ms after invocation) and
its settled outcome.  The `Promise.race` against the deadline timer
(lines 314-320) resolves to the synthetic timeout error exactly when a
positive timeout is configured and the timer fires strictly before the
unit settles; the unit's own later outcome is never consulted in that
case (the race has already settled). -/

structure TimedUnit (α : Type) (E : Type) where
  time : ℚ
  out : Outcome α E
  deriving DecidableEq

/-- Raced outcome and the elapsed duration at settlement. -/
def raceOutcome {α E : Type} (timeout : Option ℚ) (u : TimedUnit α E) : Outcome α E × ℚ :=
  match timeout with
  | some t =>
    if 0 < t then
      if t < u.time then (.thrown (.timeoutErr t), t) else (u.out, u.time)
    else (u.out, u.time)
  | none => (u.out, u.time)

/-- Effective truncation limit: explicit value on this label, else the
inherited one (line 296). -/
def effectiveMaxLen (lbl : MLabel) (inherited : Option ℚ) : Option ℚ :=
  match extractMaxResultLength lbl with
  | some q => some q
  | none => inherited

/-- Lines 298-299: the popped numeric index is encoded and appended to
the remaining (string) prefix of the chain. -/
def measureIdChain (parentTokens : List String) (idx : Nat) : List String :=
  parentTokens ++ [toAlpha idx]

def joinIds : List String → String
  | [] => ""
  | [t] => t
  | t :: rest => t ++ "-" ++ joinIds rest

/-- The async wrapper on a leaf unit: emits start, races the unit against
the optional deadline, then emits the terminal event and applies the
error policy (catch block, lines 327-341).  Returns the caller-visible
result, the updated `_lastError`, and the emitted events, in order.  The
function is total: no input makes it throw to its caller.  (The second
error event of a failing `onError` handler reuses the settlement
duration; the wall-clock time the handler itself consumes is not
modelled.) -/
def measureInternal {V E : Type} (lbl : MLabel) (u : TimedUnit (Option V) E)
    (onError : Option (MErr E → Outcome (Option V) E))
    (parentTokens : List String) (idx : Nat) (depth : Nat)
    (inheritedMaxLen : Option ℚ) (lastErr : Option (MErr E)) :
    Option V × Option (MErr E) × List (MEvent (Option V) E) :=
  let label := buildActionLabel lbl
  let budget := extractBudget lbl
  let effMaxLen := effectiveMaxLen lbl inheritedMaxLen
  let idStr := joinIds (measureIdChain parentTokens idx)
  let startEv : MEvent (Option V) E := MEvent.start idStr label depth (extractMeta lbl)
  let race := raceOutcome (extractTimeout lbl) u
  match race.1 with
  | .ok result =>
    (result, lastErr,
      [startEv, MEvent.success idStr label depth race.2 result budget effMaxLen])
  | .thrown e =>
    let errEv : MEvent (Option V) E := MEvent.error idStr label depth race.2 e budget effMaxLen
    match onError with
    | none => (none, some e, [startEv, errEv])
    | some h =>
      match h e with
      | .ok v => (v, some e, [startEv, errEv])
      | .thrown e2 =>
        (none, some e2,
          [startEv, errEv,
            MEvent.error idStr (label ++ " (onError)") depth race.2 e2 budget effMaxLen])

/-- Top-level async call with a unit (source `measureFn`, line 397):
allocates the next root id and delegates to the wrapper at depth 0. -/
def measureCall {V E : Type} (lbl : MLabel) (u : TimedUnit (Option V) E)
    (onError : Option (MErr E → Outcome (Option V) E)) (st : EngineState E) :
    Option V × EngineState E × List (MEvent (Option V) E) :=
  let r := measureInternal lbl u onError [] st.counter 0 none st.lastError
  (r.1, ⟨st.counter + 1, r.2.1⟩, r.2.2)

/-- Top-level async label-only call (source `measureFn`, lines 398-408):
consumes one root id, emits an annotation, resolves to `null`. -/
def measureAnnot {V E : Type} (lbl : MLabel) (st : EngineState E) :
    Option V × EngineState E × List (MEvent (Option V) E) :=
  (none, ⟨st.counter + 1, st.lastError⟩,
    [MEvent.annot (toAlpha st.counter) (buildActionLabel lbl) 0 (extractMeta lbl)])

/-! ## The sync execution wrapper (source `_measureInternalSync`, lines 344-387) -/

/-- A sync unit: whether the callback declares a parameter (`hasNested`,
line 355), its elapsed time and its outcome. -/
structure SyncUnit (α : Type) (E : Type) where
  hasNested : Bool
  time : ℚ
  out : Outcome α E
  deriving DecidableEq

def measureInternalSync {V E : Type} (lbl : MLabel) (u : SyncUnit (Option V) E)
    (parentTokens : List String) (idx : Nat) (depth : Nat)
    (inheritedMaxLen : Option ℚ) (lastErr : Option (MErr E)) :
    Option V × Option (MErr E) × List (MEvent (Option V) E) :=
  let label := buildActionLabel lbl
  let budget := extractBudget lbl
  let effMaxLen := effectiveMaxLen lbl inheritedMaxLen
  let idStr := joinIds (measureIdChain parentTokens idx)
  let startEvs : List (MEvent (Option V) E) :=
    if u.hasNested then [MEvent.start idStr label depth (extractMeta lbl)] else []
  match u.out with
  | .ok r =>
    (r, lastErr, startEvs ++ [MEvent.success idStr label depth u.time r budget effMaxLen])
  | .thrown e =>
    (none, some e, startEvs ++ [MEvent.error idStr label depth u.time e budget effMaxLen])

/-- Top-level sync call with a unit (source `measureSyncFn`, line 542). -/
def measureSyncCall {V E : Type} (lbl : MLabel) (u : SyncUnit (Option V) E) (st : EngineState E) :
    Option V × EngineState E × List (MEvent (Option V) E) :=
  let r := measureInternalSync lbl u [] st.counter 0 none st.lastError
  (r.1, ⟨st.counter + 1, r.2.1⟩, r.2.2)

/-- Top-level sync label-only call (source `measureSyncFn`, lines 543-553). -/
def measureSyncAnnot {V E : Type} (lbl : MLabel) (st : EngineState E) :
    Option V × EngineState E × List (MEvent (Option V) E) :=
  (none, ⟨st.counter + 1, st.lastError⟩,
    [MEvent.annot (toAlpha st.counter) (buildActionLabel lbl) 0 (extractMeta lbl)])

/-! ## Assert (source `measureFn.assert` lines 462-473,
`measureSyncFn.assert` lines 566-577) -/

/-- The `new Error(message, { cause })` raised by assert. -/
structure AssertError (E : Type) where
  message : String
  cause : Option (MErr E)
  deriving DecidableEq

def assertMessage (opName lbl : String) : String :=
  opName ++ ": \"" ++ lbl ++ "\" failed"

/-- Async assert: re-invokes the wrapper with no `onError`; a `null`
result raises an error carrying the label in its message and the current
`_lastError` as its cause, and resets `_lastError`. -/
def measureAssert {V E : Type} (lbl : MLabel) (u : TimedUnit (Option V) E) (st : EngineState E) :
    Except (AssertError E) (Option V) × EngineState E × List (MEvent (Option V) E) :=
  let r := measureCall lbl u none st
  match r.1 with
  | none =>
    (.error ⟨assertMessage "measure.assert" (buildActionLabel lbl), r.2.1.lastError⟩,
      ⟨r.2.1.counter, none⟩, r.2.2)
  | some v => (.ok (some v), r.2.1, r.2.2)

def measureSyncAssert {V E : Type} (lbl : MLabel) (u : SyncUnit (Option V) E) (st : EngineState E) :
    Except (AssertError E) (Option V) × EngineState E × List (MEvent (Option V) E) :=
  let r := measureSyncCall lbl u st
  match r.1 with
  | none =>
    (.error ⟨assertMessage "measureSync.assert" (buildActionLabel lbl), r.2.1.lastError⟩,
      ⟨r.2.1.counter, none⟩, r.2.2)
  | some v => (.ok (some v), r.2.1, r.2.2)

/-! ## The nested resolver (source `createNestedResolver`, lines 238-266)

One resolver is scoped to one parent invocation; it captures the parent's
full id chain and a private child counter starting at 0 (line 291).  A
call with a unit allocates `childCounterRef.value++` at invocation time
and recurses with chain `fullIdChain ++ [index]` (the wrapper then pops
the index and encodes it); a label-only call emits an annotation under
the parent's own joined chain and leaves the counter untouched
(lines 255-264). -/

structure ResolverState where
  fullIdChain : List String
  childCounter : Nat
  depth : Nat
  inheritedMaxLen : Option ℚ
  deriving DecidableEq

/-- Invocation with a unit: returns the `(string-prefix, numeric-index)`
pair handed to the wrapper (its id chain becomes
`measureIdChain prefix index`) and the post-allocation resolver state. -/
def resolverInvoke (rs : ResolverState) : (List String × Nat) × ResolverState :=
  ((rs.fullIdChain, rs.childCounter),
    ⟨rs.fullIdChain, rs.childCounter + 1, rs.depth, rs.inheritedMaxLen⟩)

/-- Label-only invocation through the resolver (lines 255-264). -/
def resolverAnnot (V E : Type) (lbl : MLabel) (rs : ResolverState) :
    Option V × ResolverState × List (MEvent (Option V) E) :=
  (none, rs,
    [MEvent.annot (joinIds rs.fullIdChain) (buildActionLabel lbl) (rs.depth + 1)
      (extractMeta lbl)])

/-- Interleaving of id-allocating child invocations with completions of
earlier children: completion of a child never touches the resolver state
(nothing in the source mutates `childCounterRef` on settlement), which is
what makes the assigned indices depend only on invocation order. -/
inductive ChildOp where
  | invoke
  | complete (k : Nat)
  deriving DecidableEq

def runChildOps : ResolverState → List ChildOp → List (List String × Nat)
  | _, [] => []
  | rs, .invoke :: rest =>
    let r := resolverInvoke rs
    r.1 :: runChildOps r.2 rest
  | rs, .complete _ :: rest => runChildOps rs rest

def countInvokes : List ChildOp → Nat
  | [] => 0
  | .invoke :: rest => countInvokes rest + 1
  | .complete _ :: rest => countInvokes rest

/-! ## Retry (source `measureFn.retry`, lines 421-460) -/

structure RetryOpts where
  attempts : Option Nat
  delay : Option ℚ
  backoff : Option ℚ
  deriving DecidableEq

/-- Result of a retry/measure run: caller-visible value, post state,
emitted events, and the sleeps performed between attempts
(`delay * backoff ^ i` after 0-indexed failed attempt `i`, line 455). -/
structure RunResult (V E : Type) where
  result : Option V
  state : EngineState E
  events : List (MEvent (Option V) E)
  waits : List ℚ
  deriving DecidableEq

def retryAttemptLabel (lblStr : String) (attempts i : Nat) : String :=
  lblStr ++ " [" ++ toString (i + 1) ++ "/" ++ toString attempts ++ "]"

def retryGo {V E : Type} (lblStr : String) (meta : Option (List (String × JVal)))
    (budget : Option ℚ) (attempts : Nat) (delay backoff : ℚ)
    (fn : Nat → TimedUnit (Option V) E) :
    Nat → Nat → EngineState E → RunResult V E
  | 0, _, st => ⟨none, st, [], []⟩
  | r + 1, i, st =>
    let u := fn i
    let id := toAlpha st.counter
    let albl := retryAttemptLabel lblStr attempts i
    let st' : EngineState E := ⟨st.counter + 1, st.lastError⟩
    let startEv : MEvent (Option V) E := MEvent.start id albl 0 meta
    match u.out with
    | .ok v => ⟨v, st', [startEv, MEvent.success id albl 0 u.time v budget none], []⟩
    | .thrown e =>
      let errEv : MEvent (Option V) E := MEvent.error id albl 0 u.time e budget none
      match r with
      | 0 => ⟨none, st', [startEv, errEv], []⟩
      | r' + 1 =>
        let tail := retryGo lblStr meta budget attempts delay backoff fn (r' + 1) (i + 1) st'
        ⟨tail.result, tail.state, startEv :: errEv :: tail.events,
          delay * backoff ^ i :: tail.waits⟩

/-- The start/error event pair of one failed retry attempt, as emitted
at lines 438-444 and 453. -/
def retryFailBlock {V E : Type} (lblStr : String) (meta : Option (List (String × JVal)))
    (budget : Option ℚ) (attempts : Nat) (id : String) (i : Nat) (tm : ℚ)
    (e : MErr E) : List (MEvent (Option V) E) :=
  [MEvent.start id (retryAttemptLabel lblStr attempts i) 0 meta,
   MEvent.error id (retryAttemptLabel lblStr attempts i) 0 tm e budget none]

/-- `measure.retry(label, opts, fn)`: each attempt `i` (0-indexed) runs
the raw unit under a fresh root id with label `"<label> [i+1/attempts]"`;
defaults are `attempts = 3`, `delay = 1000`, `backoff = 1`
(lines 426-428). -/
def retryModel {V E : Type} (lbl : MLabel) (opts : RetryOpts) (fn : Nat → TimedUnit (Option V) E)
    (st : EngineState E) : RunResult V E :=
  retryGo (buildActionLabel lbl) (extractMeta lbl) (extractBudget lbl)
    (opts.attempts.getD 3) (opts.delay.getD 1000) (opts.backoff.getD 1)
    fn (opts.attempts.getD 3) 0 st

/-! ## Batch (source `measureFn.batch`, lines 482-533) -/

/-- One item's processing: elapsed time and outcome of `fn(item, index)`. -/
structure BatchItemRun (R E : Type) where
  time : ℚ
  out : Outcome (Option R) E
  deriving DecidableEq

/-- Progress annotation label (lines 510-516):
`"<count>/<total> (<elapsed-seconds toFixed(1)>s, <rate toFixed(0)>/s)"`.
A zero elapsed time makes the JS rate `Infinity`. -/
def progressLabel (count total : Nat) (elapsedMs : ℚ) : String :=
  let elapsedSec := elapsedMs / 1000
  let rate := if elapsedSec = 0 then "Infinity" else qToFixed 0 ((count : ℚ) / elapsedSec)
  toString count ++ "/" ++ toString total ++ " (" ++ qToFixed 1 elapsedSec ++ "s, " ++
    rate ++ "/s)"

/-- Sequential item loop (lines 502-519): push the item's result (`null`
on throw), then, when `(i+1) % every = 0` and `i+1 < total`, emit a
progress annotation under the enclosing id. -/
def batchLoop {τ R E : Type} (fn : τ → Nat → BatchItemRun R E) (id : String) (total every : Nat) :
    List τ → Nat → ℚ → List (Option R) × List (MEvent String E) × ℚ
  | [], _, elapsed => ([], [], elapsed)
  | item :: rest, i, elapsed =>
    let run := fn item i
    let res : Option R := match run.out with | .ok v => v | .thrown _ => none
    let elapsed' := elapsed + run.time
    let progress : List (MEvent String E) :=
      if (i + 1) % every = 0 ∧ i + 1 < total then
        [MEvent.annot id (progressLabel (i + 1) total elapsed') 0 none]
      else []
    let tail := batchLoop fn id total every rest (i + 1) elapsed'
    (res :: tail.1, progress ++ tail.2.1, tail.2.2)

def batchItemsLabel (lblStr : String) (total : Nat) : String :=
  lblStr ++ " (" ++ toString total ++ " items)"

/-- Final tally (line 529): number of non-null results over the total. -/
def batchTally {R : Type} (results : List (Option R)) (total : Nat) : String :=
  toString (results.filter Option.isSome).length ++ "/" ++ toString total ++ " ok"

/-- `measure.batch(label, items, fn, opts)`: one enclosing root id, start
event annotated with the item count, sequential processing, progress
annotations, and a final success event carrying the tally string
(lines 482-533).  Default `every` is `max(1, ceil(total / 5))`. -/
def batchModel {τ R E : Type} (lbl : MLabel) (items : List τ) (fn : τ → Nat → BatchItemRun R E)
    (optEvery : Option Nat) (st : EngineState E) :
    List (Option R) × EngineState E × List (MEvent String E) :=
  let lblStr := buildActionLabel lbl
  let total := items.length
  let every := optEvery.getD (max 1 ((total + 4) / 5))
  let id := toAlpha st.counter
  let startEv : MEvent String E := MEvent.start id (batchItemsLabel lblStr total) 0 (extractMeta lbl)
  let loop := batchLoop fn id total every items 0 0
  let finalEv : MEvent String E := MEvent.success id (batchItemsLabel lblStr total) 0
    loop.2.2 (batchTally loop.1 total) (extractBudget lbl) none
  (loop.1, ⟨st.counter + 1, st.lastError⟩, startEv :: loop.2.1 ++ [finalEv])

/-- Total processing time of a list of (index, item) pairs. -/
def batchTimesSum {τ R E : Type} (fn : τ → Nat → BatchItemRun R E)
    (pairs : List (Nat × τ)) : ℚ :=
  (pairs.map (fun p => (fn p.2 p.1).time)).sum

/-- Elapsed milliseconds after the first `k` items of a batch. -/
def batchElapsedAfter {τ R E : Type} (fn : τ → Nat → BatchItemRun R E) (items : List τ) (k : Nat) : ℚ :=
  batchTimesSum fn ((items.enum).take k)

/-- Caller-visible result of one batch item: its value, or `null` when
its unit throws. -/
def batchItemResult {τ R E : Type} (fn : τ → Nat → BatchItemRun R E) (p : Nat × τ) : Option R :=
  match (fn p.2 p.1).out with
  | .ok v => v
  | .thrown _ => none

end MeasureSpec

namespace MeasureSpec

theorem toAlphaFuel_congr :
    ∀ f g n, n ≤ f → n ≤ g → toAlphaFuel f n = toAlphaFuel g n := by
  intro f
  induction f using Nat.strong_induction_on with
  | _ f ihf =>
    intro g n hf hg
    cases f with
    | zero =>
      have : n = 0 := by omega
      subst this
      cases g with
      | zero => rfl
      | succ g' => simp [toAlphaFuel]
    | succ f' =>
      cases g with
      | zero =>
        have : n = 0 := by omega
        subst this
        simp [toAlphaFuel]
      | succ g' =>
        by_cases h : n < 26
        · simp [toAlphaFuel, h]
        · have hdiv : n / 26 < n := Nat.div_lt_self (by omega) (by omega)
          have h1 : n / 26 - 1 ≤ f' := by omega
          have h2 : n / 26 - 1 ≤ g' := by omega
          simp only [toAlphaFuel, h, if_false]
          rw [ihf f' (by omega) g' (n / 26 - 1) h1 h2]

theorem toAlphaList_lt {n : Nat} (h : n < 26) :
    toAlphaList n = [Char.ofNat (97 + n % 26)] := by
  cases n with
  | zero => rfl
  | succ k => simp [toAlphaList, toAlphaFuel, h]

theorem toAlphaList_ge {n : Nat} (h : ¬ n < 26) :
    toAlphaList n = toAlphaList (n / 26 - 1) ++ [Char.ofNat (97 + n % 26)] := by
  obtain ⟨k, rfl⟩ : ∃ k, n = k + 1 := ⟨n - 1, by omega⟩
  have hdiv : (k + 1) / 26 < k + 1 := Nat.div_lt_self (by omega) (by omega)
  simp only [toAlphaList, toAlphaFuel, h, if_false]
  rw [toAlphaFuel_congr k ((k + 1) / 26 - 1) ((k + 1) / 26 - 1) (by omega) (le_refl _)]

theorem char_toNat_alpha {m : Nat} (h : m < 26) :
    (Char.ofNat (97 + m)).toNat = 97 + m := by
  revert h
  revert m
  decide

theorem alphaFold_append (l : List Char) (c : Char) :
    alphaFold (l ++ [c]) = alphaFold l * 26 + alphaDigit c := by
  simp [alphaFold, List.foldl_append]

theorem alphaFold_toAlphaList (n : Nat) : alphaFold (toAlphaList n) = n + 1 := by
  induction n using Nat.strong_induction_on with
  | _ n ih =>
    by_cases h : n < 26
    · rw [toAlphaList_lt h]
      have hmod : n % 26 < 26 := Nat.mod_lt n (by omega)
      simp [alphaFold, alphaDigit, char_toNat_alpha hmod]
      omega
    · rw [toAlphaList_ge h]
      have h26 : n / 26 < n := Nat.div_lt_self (by omega) (by omega)
      have ihn := ih (n / 26 - 1) (by omega)
      rw [alphaFold_append, ihn]
      have hdiv : 26 * (n / 26) + n % 26 = n := Nat.div_add_mod n 26
      have hge : 1 ≤ n / 26 := Nat.one_le_div_iff (by omega) |>.mpr (by omega)
      have hmod : n % 26 < 26 := Nat.mod_lt n (by omega)
      simp [alphaDigit, char_toNat_alpha hmod]
      omega

theorem alphaDecode_toAlphaList (n : Nat) : alphaDecode (toAlphaList n) = n := by
  simp [alphaDecode, alphaFold_toAlphaList]

theorem toAlphaList_injective : Function.Injective toAlphaList := by
  intro a b h
  have := congrArg alphaDecode h
  simpa [alphaDecode_toAlphaList] using this

theorem toAlpha_injective : Function.Injective toAlpha := by
  intro a b h
  apply toAlphaList_injective
  have := congrArg String.data h
  simpa [toAlpha] using this

theorem toAlphaList_length_pos (n : Nat) : 0 < (toAlphaList n).length := by
  by_cases h : n < 26
  · rw [toAlphaList_lt h]; simp
  · rw [toAlphaList_ge h]; simp

theorem toAlphaList_length_mono {n m : Nat} (hnm : n ≤ m) :
    (toAlphaList n).length ≤ (toAlphaList m).length := by
  induction m using Nat.strong_induction_on generalizing n with
  | _ m ih =>
    by_cases hm : m < 26
    · rw [toAlphaList_lt (by omega : n < 26), toAlphaList_lt hm]
      simp
    · by_cases hn : n < 26
      · rw [toAlphaList_lt hn, toAlphaList_ge hm]
        have := toAlphaList_length_pos (m / 26 - 1)
        simp only [List.length_append, List.length_cons, List.length_nil]
        omega
      · rw [toAlphaList_ge hn, toAlphaList_ge hm]
        have hdiv : n / 26 ≤ m / 26 := Nat.div_le_div_right hnm
        have hmlt : m / 26 - 1 < m := by
          have := Nat.div_lt_self (show 0 < m by omega) (show 1 < 26 by omega)
          omega
        have := ih (m / 26 - 1) hmlt (show n / 26 - 1 ≤ m / 26 - 1 by omega)
        simp only [List.length_append, List.length_cons, List.length_nil]
        omega

theorem lexLtB_append_left (A s t : List Char) :
    lexLtB (A ++ s) (A ++ t) = lexLtB s t := by
  induction A with
  | nil => rfl
  | cons a A ih =>
    simp only [List.cons_append, lexLtB, List.append_eq]
    rw [ih]
    cases h : lexLtB s t <;> simp

theorem lexLtB_append_of_lt :
    ∀ (A B : List Char), A.length = B.length → lexLtB A B = true →
      ∀ s t, lexLtB (A ++ s) (B ++ t) = true := by
  intro A
  induction A with
  | nil =>
    intro B hB h
    cases B with
    | nil => simp [lexLtB] at h
    | cons b B => simp at hB
  | cons a A ih =>
    intro B hB h s t
    cases B with
    | nil => simp at hB
    | cons b B =>
      simp only [List.length_cons, Nat.add_right_cancel_iff] at hB
      simp only [lexLtB, Bool.or_eq_true, Bool.and_eq_true, decide_eq_true_eq,
        beq_iff_eq] at h
      simp only [List.cons_append, lexLtB, Bool.or_eq_true, Bool.and_eq_true,
        decide_eq_true_eq, beq_iff_eq]
      rcases h with h | ⟨heq, hrec⟩
      · exact Or.inl h
      · exact Or.inr ⟨heq, ih B hB hrec s t⟩

theorem toAlphaList_lex_of_lt :
    ∀ m n, n < m → (toAlphaList n).length = (toAlphaList m).length →
      lexLtB (toAlphaList n) (toAlphaList m) = true := by
  intro m
  induction m using Nat.strong_induction_on with
  | _ m ih =>
    intro n hnm hlen
    by_cases hm : m < 26
    · have hn : n < 26 := by omega
      rw [toAlphaList_lt hn, toAlphaList_lt hm]
      have e1 := char_toNat_alpha (show n % 26 < 26 from Nat.mod_lt _ (by omega))
      have e2 := char_toNat_alpha (show m % 26 < 26 from Nat.mod_lt _ (by omega))
      simp only [lexLtB, Bool.or_eq_true, Bool.and_eq_true, decide_eq_true_eq,
        beq_iff_eq, e1, e2]
      left
      omega
    · by_cases hn : n < 26
      · rw [toAlphaList_lt hn, toAlphaList_ge hm] at hlen
        have := toAlphaList_length_pos (m / 26 - 1)
        simp only [List.length_append, List.length_cons, List.length_nil] at hlen
        omega
      · rw [toAlphaList_ge hn, toAlphaList_ge hm]
        have hlen' : (toAlphaList (n / 26 - 1)).length = (toAlphaList (m / 26 - 1)).length := by
          rw [toAlphaList_ge hn, toAlphaList_ge hm] at hlen
          simp only [List.length_append, List.length_cons, List.length_nil] at hlen
          omega
        have hdivle : n / 26 ≤ m / 26 := Nat.div_le_div_right (le_of_lt hnm)
        rcases Nat.lt_or_ge (n / 26 - 1) (m / 26 - 1) with hlt | hge
        · have hm'lt : m / 26 - 1 < m := by
            have := Nat.div_lt_self (show 0 < m by omega) (show 1 < 26 by omega)
            omega
          exact lexLtB_append_of_lt _ _ hlen' (ih (m / 26 - 1) hm'lt (n / 26 - 1) hlt hlen') _ _
        · have hchain : toAlphaList (n / 26 - 1) = toAlphaList (m / 26 - 1) := by
            have : n / 26 - 1 = m / 26 - 1 := by omega
            rw [this]
          rw [hchain, lexLtB_append_left]
          have hmodlt : n % 26 < m % 26 := by omega
          have e1 := char_toNat_alpha (show n % 26 < 26 from Nat.mod_lt _ (by omega))
          have e2 := char_toNat_alpha (show m % 26 < 26 from Nat.mod_lt _ (by omega))
          simp only [lexLtB, Bool.or_eq_true, Bool.and_eq_true, decide_eq_true_eq,
            beq_iff_eq, e1, e2]
          left
          omega

theorem toAlphaList_shortlex {n m : Nat} (h : n < m) :
    shortlexLt (toAlphaList n) (toAlphaList m) := by
  rcases Nat.lt_or_ge (toAlphaList n).length (toAlphaList m).length with hl | hl
  · exact Or.inl hl
  · have heq : (toAlphaList n).length = (toAlphaList m).length :=
      le_antisymm (toAlphaList_length_mono (le_of_lt h)) hl
    exact Or.inr ⟨heq, toAlphaList_lex_of_lt m n h heq⟩

/-- C3: the id-token encoder `toAlpha` is total on ℕ (it is a Lean
function), implements the bijective base-26 rule (take `n % 26` as the
least-significant character `0 ↦ 'a' … 25 ↦ 'z'`, recurse on
`n / 26 - 1` while non-negative), maps 0–25 to "a".."z", 26 to "aa",
27 to "ab", is injective (no two distinct inputs share a token), and is
strictly monotone for the shortlex enumeration order of tokens. -/
theorem toAlpha_bijective_base26 :
    (∀ n, n < 26 → toAlpha n = String.mk [Char.ofNat (97 + n)])
    ∧ toAlpha 26 = "aa"
    ∧ toAlpha 27 = "ab"
    ∧ (∀ n, ¬ n < 26 → toAlphaList n = toAlphaList (n / 26 - 1) ++ [Char.ofNat (97 + n % 26)])
    ∧ (∀ a b : Nat, toAlpha a = toAlpha b → a = b)
    ∧ (∀ a b : Nat, a < b → shortlexLt (toAlphaList a) (toAlphaList b)) := by
  refine ⟨?_, by decide, by decide, ?_, ?_, ?_⟩
  · decide
  · intro n h
    exact toAlphaList_ge h
  · intro a b h
    exact toAlpha_injective h
  · intro a b h
    exact toAlphaList_shortlex h

theorem joinIds_append_singleton :
    ∀ (P : List String) (t : String), P ≠ [] →
      joinIds (P ++ [t]) = joinIds P ++ "-" ++ t := by
  intro P
  induction P with
  | nil => intro t h; exact absurd rfl h
  | cons a P ih =>
    intro t _
    cases P with
    | nil => rfl
    | cons b Q =>
      have hne : b :: Q ≠ [] := by simp
      have h2 : joinIds (a :: b :: Q ++ [t]) = a ++ "-" ++ joinIds ((b :: Q) ++ [t]) := rfl
      rw [h2, ih t hne]
      simp [joinIds, String.append_assoc]

theorem runChildOps_eq :
    ∀ (ops : List ChildOp) (P : List String) (c d : Nat) (ml : Option ℚ),
      runChildOps ⟨P, c, d, ml⟩ ops =
        (List.range (countInvokes ops)).map (fun i => (P, c + i)) := by
  intro ops
  induction ops with
  | nil => intro P c d ml; rfl
  | cons op rest ih =>
    intro P c d ml
    cases op with
    | invoke =>
      simp only [runChildOps, resolverInvoke, countInvokes]
      rw [ih, List.range_succ_eq_map]
      simp only [List.map_cons, List.map_map, Nat.add_zero]
      congr 1
      apply List.map_congr_left
      intro i _
      simp only [Function.comp_apply]
      have harith : c + 1 + i = c + (i + 1) := by omega
      rw [harith]
    | complete k =>
      simp only [runChildOps, countInvokes]
      exact ih P c d ml

/-- C2: children spawned through the Nested Resolver (modelled by
`resolverInvoke`, under arbitrary interleaving with completions of
earlier children) receive, in invocation order, the indices 0, 1, 2, …
from the parent's private counter; the `i`-th child's id chain is
exactly the parent's chain with the single token `toAlpha i` appended,
its joined id path is the parent's path plus one dash-joined token, and
the sibling tokens decode back to the strictly increasing invocation
indices regardless of when any child completes. -/
theorem nested_resolver_id_paths (P : List String) (d : Nat) (ml : Option ℚ)
    (ops : List ChildOp) (hP : P ≠ []) :
    runChildOps ⟨P, 0, d, ml⟩ ops =
      (List.range (countInvokes ops)).map (fun i => (P, i))
    ∧ (∀ i, i < countInvokes ops → measureIdChain P i = P ++ [toAlpha i])
    ∧ (∀ i, i < countInvokes ops →
        joinIds (measureIdChain P i) = joinIds P ++ "-" ++ toAlpha i)
    ∧ (∀ i, i < countInvokes ops → alphaDecode (toAlphaList i) = i) := by
  refine ⟨?_, ?_, ?_, ?_⟩
  · have h := runChildOps_eq ops P 0 d ml
    simpa using h
  · intro i _
    rfl
  · intro i _
    exact joinIds_append_singleton P (toAlpha i) hP
  · intro i _
    exact alphaDecode_toAlphaList i

/-- Witness for C2: parent chain `["a"]`, three invocations with a
completion interleaved. -/
theorem nested_resolver_id_paths_witness :
    runChildOps ⟨["a"], 0, 0, none⟩
        [ChildOp.invoke, ChildOp.invoke, ChildOp.complete 0, ChildOp.invoke] =
      [(["a"], 0), (["a"], 1), (["a"], 2)]
    ∧ measureIdChain ["a"] 1 = ["a", "b"]
    ∧ joinIds (measureIdChain ["a"] 1) = "a-b"
    ∧ alphaDecode (toAlphaList 2) = 2 := by
  have h := nested_resolver_id_paths ["a"] 0 none
    [ChildOp.invoke, ChildOp.invoke, ChildOp.complete 0, ChildOp.invoke] (by simp)
  refine ⟨?_, ?_, ?_, ?_⟩
  · rw [h.1]
    decide
  · have := h.2.1 1 (by decide)
    rw [this]
    decide
  · have := h.2.2.1 1 (by decide)
    rw [this]
    decide
  · exact h.2.2.2 2 (by decide)

/-- C4 counterexample: a label-only call made through the Nested
Resolver consumes no id from the child counter — starting from a parent
whose child counter is 0, after the label-only call the counter is still
0, not 1 as the claim requires. -/
theorem labelOnly_resolver_no_id_cex :
    ((resolverAnnot Nat Nat (MLabel.str "note") ⟨["a"], 0, 0, none⟩).2.1.childCounter = 0)
    ∧ ¬ ((resolverAnnot Nat Nat (MLabel.str "note") ⟨["a"], 0, 0, none⟩).2.1.childCounter = 1) := by
  exact ⟨rfl, by decide⟩

/-- C4 (amended): a label-only call at the top level — asynchronous or
synchronous — consumes exactly one id from the root counter, so the next
top-level call receives the next index; a label-only call through the
Nested Resolver consumes no id from the parent's child counter: it is
emitted as an annotation under the parent's own id path, and the next
child call spawned through the resolver receives the very index the
label-only call left untouched. -/
theorem labelOnly_id_consumption (V E : Type) (lbl : MLabel) (st : EngineState E)
    (rs : ResolverState) :
    ((@measureAnnot V E lbl st).2.1.counter = st.counter + 1
      ∧ (@measureAnnot V E lbl st).2.2 =
          [MEvent.annot (toAlpha st.counter) (buildActionLabel lbl) 0 (extractMeta lbl)])
    ∧ ((@measureSyncAnnot V E lbl st).2.1.counter = st.counter + 1
      ∧ (@measureSyncAnnot V E lbl st).2.2 =
          [MEvent.annot (toAlpha st.counter) (buildActionLabel lbl) 0 (extractMeta lbl)])
    ∧ ((resolverAnnot V E lbl rs).2.1 = rs
      ∧ (resolverAnnot V E lbl rs).2.2 =
          [MEvent.annot (joinIds rs.fullIdChain) (buildActionLabel lbl) (rs.depth + 1)
            (extractMeta lbl)]
      ∧ (resolverInvoke (resolverAnnot V E lbl rs).2.1).1.2 = rs.childCounter) :=
  ⟨⟨rfl, rfl⟩, ⟨rfl, rfl⟩, rfl, rfl, rfl⟩

/-- Witness for C3 at concrete inputs. -/
theorem toAlpha_bijective_base26_witness :
    toAlpha 3 = String.mk [Char.ofNat 100]
    ∧ toAlphaList 30 = toAlphaList (30 / 26 - 1) ++ [Char.ofNat (97 + 30 % 26)]
    ∧ (5 : Nat) = 5
    ∧ shortlexLt (toAlphaList 12) (toAlphaList 120) :=
  ⟨toAlpha_bijective_base26.1 3 (by decide),
   toAlpha_bijective_base26.2.2.2.1 30 (by decide),
   toAlpha_bijective_base26.2.2.2.2.1 5 5 rfl,
   toAlpha_bijective_base26.2.2.2.2.2 12 120 (by decide)⟩


theorem raceOutcome_no_timeout {α E : Type} (u : TimedUnit α E) :
    raceOutcome none u = (u.out, u.time) := rfl

theorem raceOutcome_preempt {α E : Type} (u : TimedUnit α E) {t : ℚ}
    (hpos : 0 < t) (hlate : t < u.time) :
    raceOutcome (some t) u = (Outcome.thrown (MErr.timeoutErr t), t) := by
  simp [raceOutcome, hpos, hlate]

theorem raceOutcome_thrown_of_thrown {α E : Type} (tm : Option ℚ)
    (u : TimedUnit α E) (e : MErr E) (hthrow : u.out = Outcome.thrown e) :
    ∃ e', (raceOutcome tm u).1 = Outcome.thrown e' := by
  cases tm with
  | none => exact ⟨e, by simp [raceOutcome, hthrow]⟩
  | some t =>
    by_cases hpos : 0 < t
    · by_cases hlate : t < u.time
      · exact ⟨MErr.timeoutErr t, by simp [raceOutcome, hpos, hlate]⟩
      · exact ⟨e, by simp [raceOutcome, hpos, hlate, hthrow]⟩
    · exact ⟨e, by simp [raceOutcome, hpos, hthrow]⟩

/-- C5 (code bug): metadata extraction drops only `label`, `budget` and
`maxResultLength` — the reserved `timeout` attribute is *not* excluded:
for the label `{ label: "op", timeout: 50 }` the metadata handed to the
emitter is `{ timeout: 50 }`, and with all reserved attributes plus a
generic one present, `timeout` survives alongside the generic
attribute. -/
theorem extractMeta_keeps_timeout :
    extractMeta (MLabel.obj [("label", JVal.str "op"), ("timeout", JVal.num 50)])
      = some [("timeout", JVal.num 50)]
    ∧ extractMeta (MLabel.obj [("label", JVal.str "op"), ("budget", JVal.num 5),
        ("maxResultLength", JVal.num 9), ("timeout", JVal.num 50),
        ("userId", JVal.num 1)])
      = some [("timeout", JVal.num 50), ("userId", JVal.num 1)] :=
  ⟨rfl, rfl⟩

/-- C1: the async wrapper is a total function into `Option V` — no label,
unit or handler makes it throw or reject to its caller.  Whenever the
unit throws/rejects, the wrapper observes a failure (first conjunct);
for any observed failure `e'` it emits a start event followed by an
error event and returns `null` when no `onError` is given, records `e'`
in `_lastError`; a value returned by `onError` becomes the call's
result; and an `onError` that itself throws `e2` yields a second error
event labelled `"<label> (onError)"`, records `e2`, and the call returns
`null`. -/
theorem measure_error_isolation (V E : Type) (lbl : MLabel)
    (u : TimedUnit (Option V) E) (st : EngineState E) (e : MErr E)
    (hthrow : u.out = Outcome.thrown e) :
    (∃ e', (raceOutcome (extractTimeout lbl) u).1 = Outcome.thrown e')
    ∧ (∀ e', (raceOutcome (extractTimeout lbl) u).1 = Outcome.thrown e' →
        ((measureCall lbl u none st).1 = none
          ∧ (measureCall lbl u none st).2.1 = ⟨st.counter + 1, some e'⟩
          ∧ (measureCall lbl u none st).2.2 =
              [MEvent.start (toAlpha st.counter) (buildActionLabel lbl) 0 (extractMeta lbl),
               MEvent.error (toAlpha st.counter) (buildActionLabel lbl) 0
                 (raceOutcome (extractTimeout lbl) u).2 e' (extractBudget lbl)
                 (effectiveMaxLen lbl none)])
        ∧ (∀ (h : MErr E → Outcome (Option V) E) (v : Option V),
            h e' = Outcome.ok v → (measureCall lbl u (some h) st).1 = v)
        ∧ (∀ (h : MErr E → Outcome (Option V) E) (e2 : MErr E),
            h e' = Outcome.thrown e2 →
            (measureCall lbl u (some h) st).1 = none
            ∧ (measureCall lbl u (some h) st).2.1 = ⟨st.counter + 1, some e2⟩
            ∧ (measureCall lbl u (some h) st).2.2 =
                [MEvent.start (toAlpha st.counter) (buildActionLabel lbl) 0 (extractMeta lbl),
                 MEvent.error (toAlpha st.counter) (buildActionLabel lbl) 0
                   (raceOutcome (extractTimeout lbl) u).2 e' (extractBudget lbl)
                   (effectiveMaxLen lbl none),
                 MEvent.error (toAlpha st.counter) (buildActionLabel lbl ++ " (onError)") 0
                   (raceOutcome (extractTimeout lbl) u).2 e2 (extractBudget lbl)
                   (effectiveMaxLen lbl none)])) := by
  refine ⟨raceOutcome_thrown_of_thrown _ u e hthrow, ?_⟩
  intro e' h'
  refine ⟨?_, ?_, ?_⟩
  · simp only [measureCall, measureInternal, h']
    refine ⟨?_, ?_, ?_⟩ <;> trivial
  · intro h v hok
    simp only [measureCall, measureInternal, h', hok]
  · intro h e2 hthr
    simp only [measureCall, measureInternal, h', hthr]
    refine ⟨?_, ?_, ?_⟩ <;> trivial

/-- Witness for C1 at a concrete failing unit. -/
theorem measure_error_isolation_witness :
    ((measureCall (MLabel.str "op") (⟨5, Outcome.thrown (MErr.user 7)⟩ : TimedUnit (Option Nat) Nat)
        none ⟨0, none⟩).1 = none)
    ∧ ((measureCall (MLabel.str "op") (⟨5, Outcome.thrown (MErr.user 7)⟩ : TimedUnit (Option Nat) Nat)
        (some (fun _ => Outcome.ok (some 9))) ⟨0, none⟩).1 = some 9) := by
  have h := measure_error_isolation Nat Nat (MLabel.str "op")
    ⟨5, Outcome.thrown (MErr.user 7)⟩ ⟨0, none⟩ (MErr.user 7) rfl
  have h2 := h.2 (MErr.user 7) (by decide)
  exact ⟨h2.1.1, h2.2.1 (fun _ => Outcome.ok (some 9)) (some 9) rfl⟩

/-- C6: with a positive timeout `t` configured on the label and the
deadline firing strictly before the unit settles, the race settles to
the synthetic timeout error carrying the configured `t` (whose modelled
message is `timeoutMessage t = "Timeout (<formatted t>)"`); the call
terminates as an error handled identically to any other unit failure —
`null`, or the `onError` substitute — with `t` as the recorded duration;
and the unit's own (later) outcome is discarded: any two units settling
after the deadline produce identical results, states and events. -/
theorem measure_timeout_enforced (V E : Type) (lbl : MLabel)
    (u : TimedUnit (Option V) E) (st : EngineState E) (t : ℚ)
    (htm : extractTimeout lbl = some t) (hpos : 0 < t) (hlate : t < u.time) :
    (raceOutcome (extractTimeout lbl) u).1 = Outcome.thrown (MErr.timeoutErr t)
    ∧ timeoutMessage t = "Timeout (" ++ formatDuration t ++ ")"
    ∧ ((measureCall lbl u none st).1 = none
        ∧ (measureCall lbl u none st).2.1 = ⟨st.counter + 1, some (MErr.timeoutErr t)⟩
        ∧ (measureCall lbl u none st).2.2 =
            [MEvent.start (toAlpha st.counter) (buildActionLabel lbl) 0 (extractMeta lbl),
             MEvent.error (toAlpha st.counter) (buildActionLabel lbl) 0 t
               (MErr.timeoutErr t) (extractBudget lbl) (effectiveMaxLen lbl none)])
    ∧ (∀ (h : MErr E → Outcome (Option V) E) (v : Option V),
        h (MErr.timeoutErr t) = Outcome.ok v → (measureCall lbl u (some h) st).1 = v)
    ∧ (∀ (u2 : TimedUnit (Option V) E) (onErr : Option (MErr E → Outcome (Option V) E)),
        t < u2.time → measureCall lbl u onErr st = measureCall lbl u2 onErr st) := by
  have hrace : raceOutcome (extractTimeout lbl) u = (Outcome.thrown (MErr.timeoutErr t), t) := by
    rw [htm]
    exact raceOutcome_preempt u hpos hlate
  refine ⟨by rw [hrace], rfl, ?_, ?_, ?_⟩
  · simp only [measureCall, measureInternal, hrace]
    refine ⟨?_, ?_, ?_⟩ <;> trivial
  · intro h v hok
    simp only [measureCall, measureInternal, hrace, hok]
  · intro u2 onErr hlate2
    have hrace2 : raceOutcome (extractTimeout lbl) u2 = (Outcome.thrown (MErr.timeoutErr t), t) := by
      rw [htm]
      exact raceOutcome_preempt u2 hpos hlate2
    simp only [measureCall, measureInternal, hrace, hrace2]

/-- Witness for C6: a 50ms timeout over a unit settling at 200ms, with a
second unit that would have succeeded at 200ms producing the same run. -/
theorem measure_timeout_enforced_witness :
    ((measureCall (MLabel.obj [("label", JVal.str "Slow"), ("timeout", JVal.num 50)])
        (⟨200, Outcome.thrown (MErr.user 1)⟩ : TimedUnit (Option Nat) Nat) none ⟨0, none⟩).1 = none)
    ∧ measureCall (MLabel.obj [("label", JVal.str "Slow"), ("timeout", JVal.num 50)])
        (⟨200, Outcome.thrown (MErr.user 1)⟩ : TimedUnit (Option Nat) Nat) none ⟨0, none⟩
      = measureCall (MLabel.obj [("label", JVal.str "Slow"), ("timeout", JVal.num 50)])
        (⟨200, Outcome.ok (some 42)⟩ : TimedUnit (Option Nat) Nat) none ⟨0, none⟩ := by
  have h := measure_timeout_enforced Nat Nat
    (MLabel.obj [("label", JVal.str "Slow"), ("timeout", JVal.num 50)])
    ⟨200, Outcome.thrown (MErr.user 1)⟩ ⟨0, none⟩ 50 rfl (by norm_num) (by norm_num)
  exact ⟨h.2.2.1.1, h.2.2.2.2 ⟨200, Outcome.ok (some 42)⟩ none (by norm_num)⟩

/-- C7: on a failing unit (with no timeout configured) the assert
operation raises to its caller an error whose message is
`measure.assert: "<label>" failed` — referencing the call's label — and
whose chained cause is exactly the error the unit threw (the model's
equality stands for JS reference identity: the caught error object is
stored unchanged in `_lastError` and passed as `cause`); `_lastError` is
reset afterwards.  The plain wrapper never raises: the same failing call
through `measureCall` surfaces only as the absence value, which is the
sole failure signal available to a caller that does not use assert. -/
theorem assert_raises_with_cause (V E : Type) (lbl : MLabel)
    (u : TimedUnit (Option V) E) (st : EngineState E) (e : MErr E)
    (htm : extractTimeout lbl = none) (hthrow : u.out = Outcome.thrown e) :
    (measureAssert lbl u st).1 =
      Except.error ⟨assertMessage "measure.assert" (buildActionLabel lbl), some e⟩
    ∧ (measureAssert lbl u st).2.1 = ⟨st.counter + 1, none⟩
    ∧ assertMessage "measure.assert" (buildActionLabel lbl) =
        "measure.assert: " ++ "\"" ++ buildActionLabel lbl ++ "\"" ++ " failed"
    ∧ (measureCall lbl u none st).1 = none := by
  have hrace : raceOutcome (extractTimeout lbl) u = (Outcome.thrown e, u.time) := by
    rw [htm]
    simp [raceOutcome, hthrow]
  have hcall : (measureCall lbl u none st).1 = none ∧
      (measureCall lbl u none st).2.1 = ⟨st.counter + 1, some e⟩ := by
    simp only [measureCall, measureInternal, hrace]
    refine ⟨?_, ?_⟩ <;> trivial
  refine ⟨?_, ?_, ?_, hcall.1⟩
  · simp only [measureAssert, hcall.1, hcall.2]
  · simp only [measureAssert, hcall.1, hcall.2]
  · simp [assertMessage, String.append_assoc]

/-- Witness for C7 at a concrete failing unit. -/
theorem assert_raises_with_cause_witness :
    (measureAssert (MLabel.str "Get user")
        (⟨3, Outcome.thrown (MErr.user 11)⟩ : TimedUnit (Option Nat) Nat) ⟨0, none⟩).1 =
      Except.error ⟨assertMessage "measure.assert" "Get user", some (MErr.user 11)⟩ := by
  have h := assert_raises_with_cause Nat Nat (MLabel.str "Get user")
    ⟨3, Outcome.thrown (MErr.user 11)⟩ ⟨0, none⟩ (MErr.user 11) rfl rfl
  exact h.1

/-- C10: a unit that completes successfully but with a `null` result
still makes assert throw — for both the async and the sync variant — and
the raised error's cause is whatever `_lastError` held before the call
(the error captured by the most recent earlier failed call on the same
engine instance, possibly unrelated to the asserted call, or `null` when
no call has failed since the last assert throw); `_lastError` is reset
to `null` by the throw. -/
theorem assert_null_success_stale_cause (V E : Type) (lbl : MLabel)
    (ua : TimedUnit (Option V) E) (us : SyncUnit (Option V) E) (st : EngineState E)
    (htm : extractTimeout lbl = none)
    (ha : ua.out = Outcome.ok none) (hs : us.out = Outcome.ok none) :
    (measureAssert lbl ua st).1 =
      Except.error ⟨assertMessage "measure.assert" (buildActionLabel lbl), st.lastError⟩
    ∧ (measureAssert lbl ua st).2.1 = ⟨st.counter + 1, none⟩
    ∧ (measureSyncAssert lbl us st).1 =
      Except.error ⟨assertMessage "measureSync.assert" (buildActionLabel lbl), st.lastError⟩
    ∧ (measureSyncAssert lbl us st).2.1 = ⟨st.counter + 1, none⟩ := by
  have hrace : raceOutcome (extractTimeout lbl) ua = (Outcome.ok (none : Option V), ua.time) := by
    rw [htm]
    simp [raceOutcome, ha]
  have hcall : (measureCall lbl ua none st).1 = (none : Option V) ∧
      (measureCall lbl ua none st).2.1 = ⟨st.counter + 1, st.lastError⟩ := by
    simp only [measureCall, measureInternal, hrace]
    refine ⟨?_, ?_⟩ <;> trivial
  have hsync : (measureSyncCall lbl us st).1 = (none : Option V) ∧
      (measureSyncCall lbl us st).2.1 = ⟨st.counter + 1, st.lastError⟩ := by
    simp only [measureSyncCall, measureInternalSync, hs]
    refine ⟨?_, ?_⟩ <;> trivial
  refine ⟨?_, ?_, ?_, ?_⟩
  · simp only [measureAssert, hcall.1, hcall.2]
  · simp only [measureAssert, hcall.1, hcall.2]
  · simp only [measureSyncAssert, hsync.1, hsync.2]
  · simp only [measureSyncAssert, hsync.1, hsync.2]

/-- Witness for C10: a stale error from an unrelated earlier failure
becomes the cause of an assert on a successful-but-null unit. -/
theorem assert_null_success_stale_cause_witness :
    (measureAssert (MLabel.str "lookup")
        (⟨2, Outcome.ok none⟩ : TimedUnit (Option Nat) Nat) ⟨4, some (MErr.user 99)⟩).1 =
      Except.error ⟨assertMessage "measure.assert" "lookup", some (MErr.user 99)⟩
    ∧ (measureSyncAssert (MLabel.str "lookup")
        (⟨false, 2, Outcome.ok none⟩ : SyncUnit (Option Nat) Nat) ⟨4, some (MErr.user 99)⟩).1 =
      Except.error ⟨assertMessage "measureSync.assert" "lookup", some (MErr.user 99)⟩ := by
  have h := assert_null_success_stale_cause Nat Nat (MLabel.str "lookup")
    ⟨2, Outcome.ok none⟩ ⟨false, 2, Outcome.ok none⟩ ⟨4, some (MErr.user 99)⟩ rfl rfl rfl
  exact ⟨h.1, h.2.2.1⟩


theorem map_range_succ {β : Type} (G : Nat → β) (n : Nat) :
    (List.range (n + 1)).map G = G 0 :: (List.range n).map (fun j => G (j + 1)) := by
  rw [List.range_succ_eq_map]
  simp [List.map_map, Function.comp, Nat.succ_eq_add_one]

theorem flatten_map_range_succ {β : Type} (G : Nat → List β) (n : Nat) :
    ((List.range (n + 1)).map G).flatten
      = G 0 ++ ((List.range n).map (fun j => G (j + 1))).flatten := by
  rw [map_range_succ]
  simp

theorem retryGo_ok_step (V E : Type) (lblStr : String)
    (meta : Option (List (String × JVal))) (budget : Option ℚ) (attempts : Nat)
    (delay backoff : ℚ) (fn : Nat → TimedUnit (Option V) E) (r i : Nat)
    (st : EngineState E) (v : Option V) (hok : (fn i).out = Outcome.ok v) :
    retryGo lblStr meta budget attempts delay backoff fn (r + 1) i st =
      ⟨v, ⟨st.counter + 1, st.lastError⟩,
        [MEvent.start (toAlpha st.counter) (retryAttemptLabel lblStr attempts i) 0 meta,
         MEvent.success (toAlpha st.counter) (retryAttemptLabel lblStr attempts i) 0
           (fn i).time v budget none], []⟩ := by
  rw [retryGo.eq_def]
  simp only []
  rw [hok]

theorem retryGo_last_fail (V E : Type) (lblStr : String)
    (meta : Option (List (String × JVal))) (budget : Option ℚ) (attempts : Nat)
    (delay backoff : ℚ) (fn : Nat → TimedUnit (Option V) E) (i : Nat)
    (st : EngineState E) (e : MErr E) (he : (fn i).out = Outcome.thrown e) :
    retryGo lblStr meta budget attempts delay backoff fn 1 i st =
      ⟨none, ⟨st.counter + 1, st.lastError⟩,
        [MEvent.start (toAlpha st.counter) (retryAttemptLabel lblStr attempts i) 0 meta,
         MEvent.error (toAlpha st.counter) (retryAttemptLabel lblStr attempts i) 0
           (fn i).time e budget none], []⟩ := by
  rw [retryGo.eq_def]
  simp only []
  rw [he]

theorem retryGo_fail_step (V E : Type) (lblStr : String)
    (meta : Option (List (String × JVal))) (budget : Option ℚ) (attempts : Nat)
    (delay backoff : ℚ) (fn : Nat → TimedUnit (Option V) E) (r i : Nat)
    (st : EngineState E) (e : MErr E) (he : (fn i).out = Outcome.thrown e) :
    retryGo lblStr meta budget attempts delay backoff fn (r + 2) i st =
      ⟨(retryGo lblStr meta budget attempts delay backoff fn (r + 1) (i + 1)
          ⟨st.counter + 1, st.lastError⟩).result,
        (retryGo lblStr meta budget attempts delay backoff fn (r + 1) (i + 1)
          ⟨st.counter + 1, st.lastError⟩).state,
        MEvent.start (toAlpha st.counter) (retryAttemptLabel lblStr attempts i) 0 meta
          :: MEvent.error (toAlpha st.counter) (retryAttemptLabel lblStr attempts i) 0
               (fn i).time e budget none
          :: (retryGo lblStr meta budget attempts delay backoff fn (r + 1) (i + 1)
               ⟨st.counter + 1, st.lastError⟩).events,
        delay * backoff ^ i
          :: (retryGo lblStr meta budget attempts delay backoff fn (r + 1) (i + 1)
               ⟨st.counter + 1, st.lastError⟩).waits⟩ := by
  rw [retryGo.eq_def]
  simp only []
  rw [he]

theorem retryGo_succ_spec (V E : Type) (lblStr : String)
    (meta : Option (List (String × JVal))) (budget : Option ℚ) (attempts : Nat)
    (delay backoff : ℚ) (fn : Nat → TimedUnit (Option V) E) (errOf : Nat → MErr E) :
    ∀ (k r i : Nat) (st : EngineState E) (v : Option V), k < r →
      (∀ j, j < k → (fn (i + j)).out = Outcome.thrown (errOf (i + j))) →
      (fn (i + k)).out = Outcome.ok v →
      retryGo lblStr meta budget attempts delay backoff fn r i st =
        ⟨v, ⟨st.counter + (k + 1), st.lastError⟩,
          ((List.range k).map (fun j => retryFailBlock lblStr meta budget attempts
              (toAlpha (st.counter + j)) (i + j) (fn (i + j)).time (errOf (i + j)))).flatten
            ++ [MEvent.start (toAlpha (st.counter + k))
                  (retryAttemptLabel lblStr attempts (i + k)) 0 meta,
                MEvent.success (toAlpha (st.counter + k))
                  (retryAttemptLabel lblStr attempts (i + k)) 0 (fn (i + k)).time v budget none],
          (List.range k).map (fun j => delay * backoff ^ (i + j))⟩ := by
  intro k
  induction k with
  | zero =>
    intro r i st v hkr herr hok
    cases r with
    | zero => omega
    | succ r' =>
      have hok' : (fn i).out = Outcome.ok v := by
        have := hok
        rwa [Nat.add_zero] at this
      rw [retryGo_ok_step V E lblStr meta budget attempts delay backoff fn r' i st v hok']
      simp
  | succ k ih =>
    intro r i st v hkr herr hok
    cases r with
    | zero => omega
    | succ r' =>
      have h0 : (fn i).out = Outcome.thrown (errOf i) := by
        have := herr 0 (by omega)
        rwa [Nat.add_zero] at this
      cases r' with
      | zero => omega
      | succ r'' =>
        have herr' : ∀ j, j < k → (fn (i + 1 + j)).out = Outcome.thrown (errOf (i + 1 + j)) := by
          intro j hj
          have := herr (j + 1) (by omega)
          rwa [show i + (j + 1) = i + 1 + j by omega] at this
        have hok' : (fn (i + 1 + k)).out = Outcome.ok v := by
          have := hok
          rwa [show i + (k + 1) = i + 1 + k by omega] at this
        have htail := ih (r'' + 1) (i + 1) ⟨st.counter + 1, st.lastError⟩ v (by omega) herr' hok'
        rw [retryGo_fail_step V E lblStr meta budget attempts delay backoff fn r'' i st
            (errOf i) h0]
        rw [htail, flatten_map_range_succ, map_range_succ]
        simp only [RunResult.mk.injEq]
        refine ⟨trivial, ?_, ?_, ?_⟩
        · simp only [EngineState.mk.injEq]
          refine ⟨?_, ?_⟩ <;> first | omega | trivial
        · have hmap : (List.range k).map (fun j => @retryFailBlock V E lblStr meta budget attempts
                (toAlpha (st.counter + (j + 1))) (i + (j + 1)) (fn (i + (j + 1))).time
                (errOf (i + (j + 1))))
              = (List.range k).map (fun j => @retryFailBlock V E lblStr meta budget attempts
                (toAlpha (st.counter + 1 + j)) (i + 1 + j) (fn (i + 1 + j)).time
                (errOf (i + 1 + j))) := by
            apply List.map_congr_left
            intro j _
            have e1 : st.counter + (j + 1) = st.counter + 1 + j := by omega
            have e2 : i + (j + 1) = i + 1 + j := by omega
            rw [e1, e2]
          rw [hmap]
          have e3 : st.counter + (k + 1) = st.counter + 1 + k := by omega
          have e4 : i + (k + 1) = i + 1 + k := by omega
          rw [e3, e4]
          simp only [retryFailBlock, Nat.add_zero, List.cons_append, List.nil_append,
            List.append_assoc]
        · have hmapw : (List.range k).map (fun j => delay * backoff ^ (i + (j + 1)))
              = (List.range k).map (fun j => delay * backoff ^ (i + 1 + j)) := by
            apply List.map_congr_left
            intro j _
            have e2 : i + (j + 1) = i + 1 + j := by omega
            rw [e2]
          rw [hmapw]
          rfl

theorem retryGo_fail_spec (V E : Type) (lblStr : String)
    (meta : Option (List (String × JVal))) (budget : Option ℚ) (attempts : Nat)
    (delay backoff : ℚ) (fn : Nat → TimedUnit (Option V) E) (errOf : Nat → MErr E) :
    ∀ (r i : Nat) (st : EngineState E),
      (∀ j, j < r → (fn (i + j)).out = Outcome.thrown (errOf (i + j))) →
      retryGo lblStr meta budget attempts delay backoff fn r i st =
        ⟨none, ⟨st.counter + r, st.lastError⟩,
          ((List.range r).map (fun j => retryFailBlock lblStr meta budget attempts
              (toAlpha (st.counter + j)) (i + j) (fn (i + j)).time (errOf (i + j)))).flatten,
          (List.range (r - 1)).map (fun j => delay * backoff ^ (i + j))⟩ := by
  intro r
  induction r with
  | zero =>
    intro i st herr
    rfl
  | succ r' ih =>
    intro i st herr
    have h0 : (fn i).out = Outcome.thrown (errOf i) := by
      have := herr 0 (by omega)
      rwa [Nat.add_zero] at this
    cases r' with
    | zero =>
      rw [retryGo_last_fail V E lblStr meta budget attempts delay backoff fn i st (errOf i) h0]
      simp [retryFailBlock, List.range_succ]
    | succ r'' =>
      have herr' : ∀ j, j < r'' + 1 → (fn (i + 1 + j)).out = Outcome.thrown (errOf (i + 1 + j)) := by
        intro j hj
        have := herr (j + 1) (by omega)
        rwa [show i + (j + 1) = i + 1 + j by omega] at this
      have htail := ih (i + 1) ⟨st.counter + 1, st.lastError⟩ herr'
      rw [retryGo_fail_step V E lblStr meta budget attempts delay backoff fn r'' i st
          (errOf i) h0]
      rw [htail, flatten_map_range_succ _ (r'' + 1)]
      have hw : (List.range (r'' + 1 + 1 - 1)).map (fun j => delay * backoff ^ (i + j))
          = delay * backoff ^ (i + 0)
            :: (List.range r'').map (fun j => delay * backoff ^ (i + (j + 1))) := by
        have hr1 : r'' + 1 + 1 - 1 = r'' + 1 := by omega
        rw [hr1, map_range_succ]
      rw [hw]
      simp only [RunResult.mk.injEq]
      refine ⟨trivial, ?_, ?_, ?_⟩
      · simp only [EngineState.mk.injEq]
        refine ⟨?_, ?_⟩ <;> first | omega | trivial
      · have hmap : (List.range (r'' + 1)).map (fun j => @retryFailBlock V E lblStr meta budget attempts
              (toAlpha (st.counter + (j + 1))) (i + (j + 1)) (fn (i + (j + 1))).time
              (errOf (i + (j + 1))))
            = (List.range (r'' + 1)).map (fun j => @retryFailBlock V E lblStr meta budget attempts
              (toAlpha (st.counter + 1 + j)) (i + 1 + j) (fn (i + 1 + j)).time
              (errOf (i + 1 + j))) := by
          apply List.map_congr_left
          intro j _
          have e1 : st.counter + (j + 1) = st.counter + 1 + j := by omega
          have e2 : i + (j + 1) = i + 1 + j := by omega
          rw [e1, e2]
        rw [hmap]
        simp only [retryFailBlock, Nat.add_zero, List.cons_append, List.nil_append,
          List.append_assoc]
      · have hmapw : (List.range r'').map (fun j => delay * backoff ^ (i + (j + 1)))
            = (List.range r'').map (fun j => delay * backoff ^ (i + 1 + j)) := by
          apply List.map_congr_left
          intro j _
          have e2 : i + (j + 1) = i + 1 + j := by omega
          rw [e2]
        have hr : r'' + 1 - 1 = r'' := by omega
        rw [hr, hmapw]
        simp only [Nat.add_zero]


/-- C8: for `retry(label, {attempts, delay, backoff}, unit)` the 1-indexed
attempt `i` runs under a fresh top-level id (`toAlpha` of the next root
counter value, all attempt ids distinct) with label
`"<label> [i/attempts]"`; the first successful attempt's result is
returned immediately with no further attempts and no further waits;
after a failed attempt with attempts remaining the wait before the next
attempt is `delay * backoff ^ (i - 1)`; and when every attempt fails the
call returns `null` after `attempts - 1` waits. -/
theorem retry_controller (V E : Type) (lbl : MLabel) (attempts : Nat)
    (delay backoff : ℚ) (fn : Nat → TimedUnit (Option V) E) (errOf : Nat → MErr E)
    (st : EngineState E) :
    (∀ (k : Nat) (v : Option V), k < attempts →
      (∀ j, j < k → (fn j).out = Outcome.thrown (errOf j)) →
      (fn k).out = Outcome.ok v →
      retryModel lbl ⟨some attempts, some delay, some backoff⟩ fn st =
        ⟨v, ⟨st.counter + (k + 1), st.lastError⟩,
          ((List.range k).map (fun j => @retryFailBlock V E (buildActionLabel lbl)
              (extractMeta lbl) (extractBudget lbl) attempts
              (toAlpha (st.counter + j)) j (fn j).time (errOf j))).flatten
            ++ [MEvent.start (toAlpha (st.counter + k))
                  (retryAttemptLabel (buildActionLabel lbl) attempts k) 0 (extractMeta lbl),
                MEvent.success (toAlpha (st.counter + k))
                  (retryAttemptLabel (buildActionLabel lbl) attempts k) 0 (fn k).time v
                  (extractBudget lbl) none],
          (List.range k).map (fun j => delay * backoff ^ j)⟩)
    ∧ ((∀ j, j < attempts → (fn j).out = Outcome.thrown (errOf j)) →
      retryModel lbl ⟨some attempts, some delay, some backoff⟩ fn st =
        ⟨none, ⟨st.counter + attempts, st.lastError⟩,
          ((List.range attempts).map (fun j => @retryFailBlock V E (buildActionLabel lbl)
              (extractMeta lbl) (extractBudget lbl) attempts
              (toAlpha (st.counter + j)) j (fn j).time (errOf j))).flatten,
          (List.range (attempts - 1)).map (fun j => delay * backoff ^ j)⟩)
    ∧ (∀ j1 j2 : Nat, j1 ≠ j2 → toAlpha (st.counter + j1) ≠ toAlpha (st.counter + j2)) := by
  refine ⟨?_, ?_, ?_⟩
  · intro k v hk herr hok
    have h := retryGo_succ_spec V E (buildActionLabel lbl) (extractMeta lbl)
      (extractBudget lbl) attempts delay backoff fn errOf k attempts 0 st v hk
      (fun j hj => by simpa using herr j hj) (by simpa using hok)
    have hm : retryModel lbl ⟨some attempts, some delay, some backoff⟩ fn st
        = retryGo (buildActionLabel lbl) (extractMeta lbl) (extractBudget lbl)
            attempts delay backoff fn attempts 0 st := rfl
    rw [hm, h]
    simp [Nat.zero_add]
  · intro herr
    have h := retryGo_fail_spec V E (buildActionLabel lbl) (extractMeta lbl)
      (extractBudget lbl) attempts delay backoff fn errOf attempts 0 st
      (fun j hj => by simpa using herr j hj)
    have hm : retryModel lbl ⟨some attempts, some delay, some backoff⟩ fn st
        = retryGo (buildActionLabel lbl) (extractMeta lbl) (extractBudget lbl)
            attempts delay backoff fn attempts 0 st := rfl
    rw [hm, h]
    simp [Nat.zero_add]
  · intro j1 j2 hne heq
    exact hne (by have := toAlpha_injective heq; omega)

/-- Witness for C8: `attempts = 3`, `delay = 100`, `backoff = 2`, a unit
failing twice then succeeding: exactly three attempt-labelled calls, two
error events and one success event, the successful result returned, and
waits `[100, 200]`. -/
theorem retry_controller_witness :
    retryModel (MLabel.str "Flaky") ⟨some 3, some 100, some 2⟩
        (fun j => if j < 2 then ⟨10, Outcome.thrown (MErr.user 5)⟩
                  else ⟨20, Outcome.ok (some 42)⟩)
        (⟨0, none⟩ : EngineState Nat) =
      ⟨some 42, ⟨3, none⟩,
        [MEvent.start "a" "Flaky [1/3]" 0 none,
         MEvent.error "a" "Flaky [1/3]" 0 10 (MErr.user 5) none none,
         MEvent.start "b" "Flaky [2/3]" 0 none,
         MEvent.error "b" "Flaky [2/3]" 0 10 (MErr.user 5) none none,
         MEvent.start "c" "Flaky [3/3]" 0 none,
         MEvent.success "c" "Flaky [3/3]" 0 20 (some 42) none none],
        [100, 200]⟩ := by
  have h := (retry_controller Nat Nat (MLabel.str "Flaky") 3 100 2
    (fun j => if j < 2 then ⟨10, Outcome.thrown (MErr.user 5)⟩
              else ⟨20, Outcome.ok (some 42)⟩)
    (fun _ => MErr.user 5) ⟨0, none⟩).1 2 (some 42) (by decide)
    (by decide) (by decide)
  rw [h]
  simp only [RunResult.mk.injEq]
  refine ⟨by decide, by decide, by decide, ?_⟩
  norm_num [List.range_succ]


theorem batchLoop_spec (τ R E : Type) (fn : τ → Nat → BatchItemRun R E) (id : String)
    (total every : Nat) :
    ∀ (itms : List τ) (i : Nat) (e0 : ℚ),
      batchLoop fn id total every itms i e0 =
        ((itms.enumFrom i).map (batchItemResult fn),
         ((List.range itms.length).map (fun j =>
            if (i + j + 1) % every = 0 ∧ i + j + 1 < total then
              [MEvent.annot id (progressLabel (i + j + 1) total
                (e0 + batchTimesSum fn ((itms.enumFrom i).take (j + 1)))) 0 none]
            else [])).flatten,
         e0 + batchTimesSum fn (itms.enumFrom i)) := by
  intro itms
  induction itms with
  | nil =>
    intro i e0
    simp [batchLoop, batchTimesSum]
  | cons x xs ih =>
    intro i e0
    simp only [batchLoop]
    rw [ih (i + 1) (e0 + (fn x i).time)]
    have henum : (x :: xs).enumFrom i = (i, x) :: xs.enumFrom (i + 1) := rfl
    simp only [Prod.mk.injEq]
    refine ⟨?_, ?_, ?_⟩
    · rw [henum, List.map_cons]
      rfl
    · rw [List.length_cons, flatten_map_range_succ _ xs.length]
      have hG0 : (if (i + 0 + 1) % every = 0 ∧ i + 0 + 1 < total then
            [MEvent.annot id (progressLabel (i + 0 + 1) total
              (e0 + batchTimesSum fn (((x :: xs).enumFrom i).take (0 + 1)))) 0 none]
          else ([] : List (MEvent String E)))
          = (if (i + 1) % every = 0 ∧ i + 1 < total then
            [MEvent.annot id (progressLabel (i + 1) total (e0 + (fn x i).time)) 0 none]
          else []) := by
        have e1 : i + 0 + 1 = i + 1 := by omega
        have e2 : batchTimesSum fn (((x :: xs).enumFrom i).take (0 + 1)) = (fn x i).time := by
          rw [henum]
          simp [batchTimesSum]
        rw [e1, e2]
      have hshift : (List.range xs.length).map (fun j =>
            if (i + (j + 1) + 1) % every = 0 ∧ i + (j + 1) + 1 < total then
              [MEvent.annot id (progressLabel (i + (j + 1) + 1) total
                (e0 + batchTimesSum fn (((x :: xs).enumFrom i).take (j + 1 + 1)))) 0 none]
            else ([] : List (MEvent String E)))
          = (List.range xs.length).map (fun j =>
            if (i + 1 + j + 1) % every = 0 ∧ i + 1 + j + 1 < total then
              [MEvent.annot id (progressLabel (i + 1 + j + 1) total
                (e0 + (fn x i).time + batchTimesSum fn ((xs.enumFrom (i + 1)).take (j + 1)))) 0 none]
            else []) := by
        apply List.map_congr_left
        intro j _
        have e1 : i + (j + 1) + 1 = i + 1 + j + 1 := by omega
        have e2 : batchTimesSum fn (((x :: xs).enumFrom i).take (j + 1 + 1))
            = (fn x i).time + batchTimesSum fn ((xs.enumFrom (i + 1)).take (j + 1)) := by
          rw [henum]
          simp [batchTimesSum]
        rw [e1, e2, ← add_assoc]
      rw [hG0, hshift]
    · rw [henum]
      simp [batchTimesSum, add_assoc]


/-- C9 (amended): `batch(label, items, fn, {every?})` returns one entry
per item in input order, substituting `null` for any item whose unit
throws (an item failure never aborts the batch); items are processed
strictly sequentially (the event stream below interleaves the `j`-th
progress annotation after exactly `j+1` item completions, with elapsed
time the sum of the first `j+1` item durations); every `every`-th
completed item (default `every = max(1, ceil(total/5))`) other than the
final one triggers a progress annotation carrying count-so-far, elapsed
time and throughput; and the final terminal event reports
`"<non-null result count>/<total> ok"` as its result. -/
theorem batch_controller (τ R E : Type) (lbl : MLabel) (items : List τ)
    (fn : τ → Nat → BatchItemRun R E) (optEvery : Option Nat) (st : EngineState E) :
    (batchModel lbl items fn optEvery st).1 = items.enum.map (batchItemResult fn)
    ∧ (batchModel lbl items fn optEvery st).2.1 = ⟨st.counter + 1, st.lastError⟩
    ∧ (batchModel lbl items fn optEvery st).2.2 =
        MEvent.start (toAlpha st.counter) (batchItemsLabel (buildActionLabel lbl) items.length)
            0 (extractMeta lbl)
          :: (((List.range items.length).map (fun j =>
                if (j + 1) % (optEvery.getD (max 1 ((items.length + 4) / 5))) = 0
                    ∧ j + 1 < items.length then
                  [MEvent.annot (toAlpha st.counter)
                    (progressLabel (j + 1) items.length (batchElapsedAfter fn items (j + 1)))
                    0 none]
                else [])).flatten
              ++ [MEvent.success (toAlpha st.counter)
                    (batchItemsLabel (buildActionLabel lbl) items.length) 0
                    (batchElapsedAfter fn items items.length)
                    (batchTally (items.enum.map (batchItemResult fn)) items.length)
                    (extractBudget lbl) none])
    ∧ batchTally (items.enum.map (batchItemResult fn)) items.length =
        toString (((items.enum.map (batchItemResult fn)).filter Option.isSome).length)
          ++ "/" ++ toString items.length ++ " ok" := by
  have h := batchLoop_spec τ R E fn (toAlpha st.counter) items.length
    (optEvery.getD (max 1 ((items.length + 4) / 5))) items 0 0
  have htake : (List.enumFrom 0 items).take items.length = List.enumFrom 0 items := by
    have hlen : (List.enumFrom 0 items).length = items.length := by simp
    rw [← hlen]
    exact List.take_length _
  have helap : ∀ k, batchElapsedAfter fn items k = batchTimesSum fn ((items.enumFrom 0).take k) := by
    intro k
    rfl
  refine ⟨?_, rfl, ?_, rfl⟩
  · show (batchLoop fn (toAlpha st.counter) items.length
        (optEvery.getD (max 1 ((items.length + 4) / 5))) items 0 0).1
      = items.enum.map (batchItemResult fn)
    rw [h]
    rfl
  · show MEvent.start (toAlpha st.counter) (batchItemsLabel (buildActionLabel lbl) items.length)
        0 (extractMeta lbl)
      :: ((batchLoop fn (toAlpha st.counter) items.length
            (optEvery.getD (max 1 ((items.length + 4) / 5))) items 0 0).2.1
          ++ [MEvent.success (toAlpha st.counter)
                (batchItemsLabel (buildActionLabel lbl) items.length) 0
                (batchLoop fn (toAlpha st.counter) items.length
                  (optEvery.getD (max 1 ((items.length + 4) / 5))) items 0 0).2.2
                (batchTally (batchLoop fn (toAlpha st.counter) items.length
                  (optEvery.getD (max 1 ((items.length + 4) / 5))) items 0 0).1 items.length)
                (extractBudget lbl) none]) = _
    rw [h]
    have hmapann : (List.range items.length).map (fun j =>
          if (0 + j + 1) % (optEvery.getD (max 1 ((items.length + 4) / 5))) = 0
              ∧ 0 + j + 1 < items.length then
            [MEvent.annot (toAlpha st.counter)
              (progressLabel (0 + j + 1) items.length
                (0 + batchTimesSum fn ((items.enumFrom 0).take (j + 1)))) 0 none]
          else ([] : List (MEvent String E)))
        = (List.range items.length).map (fun j =>
          if (j + 1) % (optEvery.getD (max 1 ((items.length + 4) / 5))) = 0
              ∧ j + 1 < items.length then
            [MEvent.annot (toAlpha st.counter)
              (progressLabel (j + 1) items.length (batchElapsedAfter fn items (j + 1))) 0 none]
          else []) := by
      apply List.map_congr_left
      intro j _
      have e1 : 0 + j + 1 = j + 1 := by omega
      rw [e1, helap (j + 1), zero_add]
    rw [hmapann]
    have hdur : (0 : ℚ) + batchTimesSum fn (List.enumFrom 0 items)
        = batchElapsedAfter fn items items.length := by
      rw [zero_add, helap items.length, htake]
    rw [hdur]
    rfl


/-- C9 counterexample: with `items = [1, 2, 3]`, every unit succeeding,
and the default `every = max(1, ceil(3/5)) = 1`, the claim as stated
predicts a progress annotation for every completed item — three in all —
but the final item never triggers one: the emitted event stream contains
exactly 2 progress annotations, not 3. -/
theorem batch_progress_final_item_cex :
    (((batchModel (MLabel.str "items") [1, 2, 3]
        (fun x _ => ⟨1000, Outcome.ok (some (x * 10))⟩) none
        (⟨0, none⟩ : EngineState Nat)).2.2.filter MEvent.isAnnot).length = 2)
    ∧ (((batchModel (MLabel.str "items") [1, 2, 3]
        (fun x _ => ⟨1000, Outcome.ok (some (x * 10))⟩) none
        (⟨0, none⟩ : EngineState Nat)).2.2.filter MEvent.isAnnot).length ≠ 3) := by
  constructor
  · decide
  · decide

end MeasureSpec
